import Mathlib

set_option autoImplicit false

namespace StartupAnalyst

/-!  Shallow embedding of the ingestion, extraction and curation pipeline of the
AI-Analyst-for-Startups repository.  The curation data model follows the
`Dataset` interface of the curation UI (src/unnamed/part_004); the Preview
rendering and the upload page's analyze handler are translated directly from
the React sources.  The backend services (File Registry, Ingestion Gateway,
Preprocessing Worker Pool, Curation Manager endpoints) are not present in the
web sources, only their HTTP callers and the API-gateway proxies are; those
parts are modelled from the design document, and each such definition is
marked `Modelled from the spec:`. -/

/-- Status of a curated dataset, from the `Dataset` interface and the status
chip of `DatasetCard` (src/unnamed/part_004): `in_progress`, `completed`,
`ready_for_ai`. -/
inductive DatasetStatus
  | in_progress
  | completed
  | ready_for_ai
  deriving DecidableEq, Repr

/-- A curated dataset, following the `Dataset` interface of the curation UI
(src/unnamed/part_004). -/
structure Dataset where
  dataset_id : String
  dataset_name : String
  status : DatasetStatus
  raw_content : String
  curated_content : String
  excluded_sections : List String
  added_content : String
  user_notes : String
  content_tags : List String
  deriving DecidableEq, Repr

/-- The fields sent by `CurationDialog.handleSave` in its
`PUT /datasets/{id}/curate` request (src/unnamed/part_004): curated content,
added content, user notes and content tags. -/
structure CurationUpdate where
  curated_content : String
  added_content : String
  user_notes : String
  content_tags : List String
  deriving DecidableEq, Repr

/-- Error taxonomy of the curation manager (design document §7). -/
inductive CurationError
  | validationError
  | notReadyError
  | immutableError
  deriving DecidableEq, Repr

/-- The full-field upsert applied by a successful curation update: every
user-editable field is overwritten, the identity, raw content and status are
untouched. -/
def applyUpdate (d : Dataset) (u : CurationUpdate) : Dataset :=
  { d with
    curated_content := u.curated_content
    added_content := u.added_content
    user_notes := u.user_notes
    content_tags := u.content_tags }

/-- Modelled from the spec: the Curation Manager's `UpdateCuration` operation
(§4.5); the curation service backend is not among the web sources, only its
caller `CurationDialog.handleSave` is.  Allowed only while
`status ≠ ready_for_ai`; the write is a full-field upsert; on an approved
dataset it fails with `ImmutableError`. -/
def UpdateCuration (d : Dataset) (u : CurationUpdate) : Except CurationError Dataset :=
  if d.status = DatasetStatus.ready_for_ai then
    Except.error CurationError.immutableError
  else
    Except.ok (applyUpdate d u)

/-- Modelled from the spec: the `PUT /datasets/{id}/curate` endpoint over the
dataset store (§4.5, §6).  An unknown id is a validation error; otherwise the
single-dataset `UpdateCuration` decides, and on success the store is rewritten
with the upserted dataset. -/
def updateCurationStore (s : List Dataset) (i : String) (u : CurationUpdate) :
    Except CurationError (List Dataset) :=
  match s.find? (fun d => d.dataset_id == i) with
  | none => Except.error CurationError.validationError
  | some d =>
    match UpdateCuration d u with
    | Except.error e => Except.error e
    | Except.ok d2 => Except.ok (s.map fun e => if e.dataset_id == i then d2 else e)

/-- State-passing form of the curation update endpoint: a failed call leaves
the store exactly as it was. -/
def runUpdateCuration (s : List Dataset) (i : String) (u : CurationUpdate) :
    Except CurationError Unit × List Dataset :=
  match updateCurationStore s i u with
  | Except.ok s2 => (Except.ok (), s2)
  | Except.error e => (Except.error e, s)

/-- Rendering of the Preview tab of `CurationDialog` (src/unnamed/part_004,
lines 325–347): the curated content, then — only when `added_content` is a
non-empty (truthy) string — the literal block
`"\n\n=== ADDITIONAL CONTEXT ===\n"` followed by the added content. -/
def previewRender (d : Dataset) : String :=
  d.curated_content ++
    (if d.added_content ≠ "" then "\n\n=== ADDITIONAL CONTEXT ===\n" ++ d.added_content
     else "")

/-- Modelled from the spec: `GET /datasets/{id}/approved-text` (§6); the
endpoint is not among the web sources.  Valid only when
`status = ready_for_ai`; returns the deterministic `Preview` output. -/
def approvedText (d : Dataset) : Except CurationError String :=
  if d.status = DatasetStatus.ready_for_ai then Except.ok (previewRender d)
  else Except.error CurationError.notReadyError

/-- Modelled from the spec: `Approve(dataset_id)` (§4.5); the curation service
backend is not among the web sources, only its caller
`CurationDialog.handleApproveForAnalysis` is.  Transitions
`status → ready_for_ai`; approving an already-approved dataset is a no-op
success. -/
def Approve (d : Dataset) : Except CurationError Dataset :=
  Except.ok { d with status := DatasetStatus.ready_for_ai }

/-- File-processing states of the registry state machine (design document
§4.2). -/
inductive FileStatus
  | uploaded
  | processing
  | extracted
  | failed_retryable
  | failed_terminal
  deriving DecidableEq, Repr

/-- Modelled from the spec: `CreateDataset(source_file_ids, name)` (§4.5):
requires a non-empty source list whose files are all in `extracted` state;
the new dataset starts `in_progress` with its curated content initialized
from the merged sources. -/
def CreateDataset (sources : List (Nat × FileStatus)) (name : String)
    (newId : String) (initialContent : String) : Except CurationError Dataset :=
  if sources = [] then Except.error CurationError.validationError
  else if sources.all (fun s => s.2 == FileStatus.extracted) then
    Except.ok
      { dataset_id := newId
        dataset_name := name
        status := DatasetStatus.in_progress
        raw_content := initialContent
        curated_content := initialContent
        excluded_sections := []
        added_content := ""
        user_notes := ""
        content_tags := [] }
  else Except.error CurationError.notReadyError

/-- The contract surface of the Curation Manager acting on an existing
dataset (§4.5): curation updates, approval, and the read-only preview. -/
inductive CurationOp
  | update (u : CurationUpdate)
  | approve
  | preview
  deriving Repr

/-- One curation operation applied to a dataset; a failed operation leaves
the dataset unchanged, and `preview` is read-only. -/
def applyOp (d : Dataset) : CurationOp → Dataset
  | CurationOp.update u =>
    match UpdateCuration d u with
    | Except.ok d2 => d2
    | Except.error _ => d
  | CurationOp.approve =>
    match Approve d with
    | Except.ok d2 => d2
    | Except.error _ => d
  | CurationOp.preview => d

/-- A curation update never changes the status of a dataset. -/
theorem applyOp_status_of_ne_approve (d : Dataset) (op : CurationOp)
    (h : op ≠ CurationOp.approve) : (applyOp d op).status = d.status := by
  cases op with
  | update u =>
    simp only [applyOp, UpdateCuration]
    by_cases hd : d.status = DatasetStatus.ready_for_ai
    · simp [hd]
    · simp [hd, applyUpdate]
  | approve => exact absurd rfl h
  | preview => rfl

/-- C1. `UpdateCuration` on a dataset whose status is `ready_for_ai`
always fails with `ImmutableError`, and the store — in particular the
dataset's `curated_content` — is byte-for-byte unchanged after the failed
call. -/
theorem approval_immutability_update_fails
    (s : List Dataset) (i : String) (u : CurationUpdate) (d : Dataset)
    (hfind : s.find? (fun e => e.dataset_id == i) = some d)
    (hready : d.status = DatasetStatus.ready_for_ai) :
    (runUpdateCuration s i u).1 = Except.error CurationError.immutableError ∧
    (runUpdateCuration s i u).2 = s ∧
    ∃ d2, (runUpdateCuration s i u).2.find? (fun e => e.dataset_id == i) = some d2 ∧
      d2.curated_content = d.curated_content := by
  have hupd : updateCurationStore s i u = Except.error CurationError.immutableError := by
    simp only [updateCurationStore, hfind, UpdateCuration, hready, if_pos]
  refine ⟨?_, ?_, ?_⟩
  · simp [runUpdateCuration, hupd]
  · simp [runUpdateCuration, hupd]
  · exact ⟨d, by simp [runUpdateCuration, hupd, hfind]⟩

/-- Witness for C1 at a concrete approved dataset. -/
def dReady : Dataset :=
  { dataset_id := "ds1"
    dataset_name := "Pitch"
    status := DatasetStatus.ready_for_ai
    raw_content := "raw"
    curated_content := "curated body"
    excluded_sections := []
    added_content := "extra"
    user_notes := ""
    content_tags := ["saas"] }

/-- A concrete curation update request. -/
def uEx : CurationUpdate :=
  { curated_content := "overwritten"
    added_content := ""
    user_notes := "n"
    content_tags := [] }

theorem approval_immutability_update_fails_witness :
    (runUpdateCuration [dReady] "ds1" uEx).1 = Except.error CurationError.immutableError ∧
    (runUpdateCuration [dReady] "ds1" uEx).2 = [dReady] ∧
    ∃ d2, (runUpdateCuration [dReady] "ds1" uEx).2.find? (fun e => e.dataset_id == "ds1")
        = some d2 ∧ d2.curated_content = dReady.curated_content :=
  approval_immutability_update_fails [dReady] "ds1" uEx dReady (by decide) (by decide)

/-- C2. `Preview` is a pure function of the dataset's fields: it returns
`curated_content` alone when `added_content` is empty, and otherwise
`curated_content` followed by the delimiter line `=== ADDITIONAL CONTEXT ===`
and `added_content`; `GET /datasets/{id}/approved-text` returns exactly this
output. -/
theorem preview_deterministic_render (d : Dataset) :
    (d.added_content = "" → previewRender d = d.curated_content) ∧
    (d.added_content ≠ "" →
      previewRender d =
        d.curated_content ++ "\n\n=== ADDITIONAL CONTEXT ===\n" ++ d.added_content) ∧
    (d.status = DatasetStatus.ready_for_ai →
      approvedText d = Except.ok (previewRender d)) := by
  refine ⟨fun h => ?_, fun h => ?_, fun h => ?_⟩
  · simp [previewRender, h]
  · simp [previewRender, h, String.append_assoc]
  · simp [approvedText, h]

theorem preview_deterministic_render_witness :
    (dReady.added_content = "" → previewRender dReady = dReady.curated_content) ∧
    (dReady.added_content ≠ "" →
      previewRender dReady =
        dReady.curated_content ++ "\n\n=== ADDITIONAL CONTEXT ===\n" ++ dReady.added_content) ∧
    (dReady.status = DatasetStatus.ready_for_ai →
      approvedText dReady = Except.ok (previewRender dReady)) :=
  preview_deterministic_render dReady

/-- C6. `Approve` transitions the status to `ready_for_ai`; it is
idempotent (approving an already-approved dataset is a no-op success); and a
dataset's status never becomes `ready_for_ai` by any operation other than an
explicit approve: dataset creation starts `in_progress`, and any operation
sequence that ends `ready_for_ai` from a non-approved dataset contains an
explicit `approve`. -/
theorem approve_idempotent_gate (d : Dataset) :
    (Approve d = Except.ok { d with status := DatasetStatus.ready_for_ai }) ∧
    (d.status = DatasetStatus.ready_for_ai → Approve d = Except.ok d) ∧
    (∀ ops : List CurationOp, d.status ≠ DatasetStatus.ready_for_ai →
      (ops.foldl applyOp d).status = DatasetStatus.ready_for_ai →
      CurationOp.approve ∈ ops) ∧
    (∀ (srcs : List (Nat × FileStatus)) (nm i c : String) (d2 : Dataset),
      CreateDataset srcs nm i c = Except.ok d2 → d2.status = DatasetStatus.in_progress) := by
  refine ⟨rfl, fun h => ?_, ?_, ?_⟩
  · have : { d with status := DatasetStatus.ready_for_ai } = d := by
      cases d; simp_all
    rw [Approve, this]
  · intro ops
    induction ops generalizing d with
    | nil => intro hne hr; exact absurd hr hne
    | cons op rest ih =>
      intro hne hr
      by_cases hop : op = CurationOp.approve
      · exact hop ▸ List.mem_cons_self _ _
      · have hst : (applyOp d op).status = d.status := applyOp_status_of_ne_approve d op hop
        have : CurationOp.approve ∈ rest := by
          apply ih (applyOp d op) (hst ▸ hne)
          simpa using hr
        exact List.mem_cons_of_mem _ this
  · intro srcs nm i c d2 hcd
    unfold CreateDataset at hcd
    by_cases h0 : srcs = []
    · simp [h0] at hcd
    · by_cases h1 : srcs.all (fun s => s.2 == FileStatus.extracted)
      · simp [h0, h1] at hcd
        rw [← hcd]
      · simp [h0, h1] at hcd

/-- A concrete dataset that has not been approved yet. -/
def dDraft : Dataset :=
  { dReady with dataset_id := "ds2", status := DatasetStatus.completed }

theorem approve_idempotent_gate_witness :
    (Approve dReady = Except.ok { dReady with status := DatasetStatus.ready_for_ai }) ∧
    (Approve dReady = Except.ok dReady) ∧
    CurationOp.approve ∈ [CurationOp.update uEx, CurationOp.approve] := by
  refine ⟨(approve_idempotent_gate dReady).1, (approve_idempotent_gate dReady).2.1 (by decide), ?_⟩
  exact (approve_idempotent_gate dDraft).2.2.1
    [CurationOp.update uEx, CurationOp.approve] (by decide) (by decide)

/-- Validation failures of the ingestion gateway (design document §4.1, §7):
oversize input or an unsupported declared media kind. -/
inductive ValidationError
  | tooLarge
  | unsupportedKind
  deriving DecidableEq, Repr

/-- Gateway configuration: the size ceiling and the supported media kinds. -/
structure GatewayConfig where
  sizeLimit : Nat
  supportedKinds : List String
  deriving Repr

/-- One upload: a file name, the raw bytes, and the declared media kind. -/
structure UploadInput where
  name : String
  bytes : List Nat
  declaredMediaKind : String
  deriving DecidableEq, Repr

/-- Modelled from the spec: gateway input validation (§4.1).  Rejects input
exceeding the configured size ceiling or an unsupported declared media kind;
validation depends only on the input itself. -/
def validateInput (cfg : GatewayConfig) (i : UploadInput) : Option ValidationError :=
  if cfg.sizeLimit < i.bytes.length then some ValidationError.tooLarge
  else if i.declaredMediaKind ∈ cfg.supportedKinds then none
  else some ValidationError.unsupportedKind

/-- A raw-file registry record (design document §3); the content hash is
modelled as the raw byte sequence itself (an injective digest). -/
structure RawFile where
  file_id : Nat
  content_hash : List Nat
  media_kind : String
  status : FileStatus
  superseded : Bool
  deriving DecidableEq, Repr

/-- An active record: not superseded and not in terminal failure (§3). -/
def isActiveDup (bytes : List Nat) (f : RawFile) : Bool :=
  decide (f.content_hash = bytes ∧ f.superseded = false ∧
    f.status ≠ FileStatus.failed_terminal)

/-- The file registry: the raw-file records plus the next fresh id. -/
structure Registry where
  files : List RawFile
  nextId : Nat
  deriving Repr

/-- Modelled from the spec: `Submit(bytes, declaredMediaKind, sizeLimit)`
(§4.1); the gateway backend is not among the web sources.  After validation,
if an active record with the same content hash exists its `file_id` is
returned unchanged (dedup contract); otherwise a fresh `uploaded` record is
created. -/
def Submit (cfg : GatewayConfig) (r : Registry) (i : UploadInput) :
    Except ValidationError (Nat × Registry) :=
  match validateInput cfg i with
  | some e => Except.error e
  | none =>
    match r.files.find? (isActiveDup i.bytes) with
    | some f => Except.ok (f.file_id, r)
    | none =>
      Except.ok (r.nextId,
        { files :=
            { file_id := r.nextId
              content_hash := i.bytes
              media_kind := i.declaredMediaKind
              status := FileStatus.uploaded
              superseded := false } :: r.files
          nextId := r.nextId + 1 })

/-- C4. Submitting the same bytes twice while the record created by the
first submission is active returns the same `file_id` both times, and exactly
one RawFile record with that content hash exists afterwards. -/
theorem dedup_idempotent_submission
    (cfg : GatewayConfig) (r : Registry) (i : UploadInput)
    (hval : validateInput cfg i = none)
    (hfresh : ∀ f ∈ r.files, f.content_hash ≠ i.bytes) :
    ∃ id r1 r2,
      Submit cfg r i = Except.ok (id, r1) ∧
      Submit cfg r1 i = Except.ok (id, r2) ∧
      r2 = r1 ∧
      (r2.files.filter (fun f => f.content_hash == i.bytes)).length = 1 := by
  have hnone : r.files.find? (isActiveDup i.bytes) = none := by
    rw [List.find?_eq_none]
    intro f hf
    simp only [isActiveDup, decide_eq_true_eq, not_and]
    intro hh
    exact absurd hh (hfresh f hf)
  set fNew : RawFile :=
    { file_id := r.nextId
      content_hash := i.bytes
      media_kind := i.declaredMediaKind
      status := FileStatus.uploaded
      superseded := false } with hfNew
  have h1 : Submit cfg r i =
      Except.ok (r.nextId, { files := fNew :: r.files, nextId := r.nextId + 1 }) := by
    simp [Submit, hval, hnone, hfNew]
  have hact : isActiveDup i.bytes fNew = true := by
    simp [isActiveDup, hfNew]
  have h2 : Submit cfg { files := fNew :: r.files, nextId := r.nextId + 1 } i =
      Except.ok (r.nextId, { files := fNew :: r.files, nextId := r.nextId + 1 }) := by
    simp [Submit, hval, List.find?_cons_of_pos _ hact, hfNew]
  refine ⟨r.nextId, _, _, h1, h2, rfl, ?_⟩
  have hrest : (r.files.filter (fun f => f.content_hash == i.bytes)) = [] := by
    rw [List.filter_eq_nil_iff]
    intro f hf
    simpa using hfresh f hf
  simp [List.filter_cons, hfNew, hrest]

/-- A concrete gateway configuration. -/
def cfgEx : GatewayConfig :=
  { sizeLimit := 100, supportedKinds := ["document", "image", "audio", "video"] }

/-- A concrete upload. -/
def iEx : UploadInput :=
  { name := "deck.pdf", bytes := [10, 20, 30], declaredMediaKind := "document" }

theorem dedup_idempotent_submission_witness :
    ∃ id r1 r2,
      Submit cfgEx { files := [], nextId := 0 } iEx = Except.ok (id, r1) ∧
      Submit cfgEx r1 iEx = Except.ok (id, r2) ∧
      r2 = r1 ∧
      (r2.files.filter (fun f => f.content_hash == iEx.bytes)).length = 1 :=
  dedup_idempotent_submission cfgEx { files := [], nextId := 0 } iEx
    (by decide) (by intro f hf; simp at hf)

/-- Shape of the bulk-upload response, from the `BulkUploadResponse`
interface of the enhanced upload page (src/unnamed/part_003, lines 52–58). -/
structure BulkUploadResponse where
  batch_id : Nat
  total_files : Nat
  accepted_files : Nat
  rejected_files : List String
  processing_started : Bool
  deriving Repr

/-- Whether a per-item submission outcome is an acceptance. -/
def isAccepted (o : Except ValidationError Nat) : Bool :=
  match o with
  | Except.ok _ => true
  | Except.error _ => false

/-- Modelled from the spec: bulk submission runs the single-submission
operation on each input independently (§4.1, §6); a rejected input
contributes its error and leaves the registry untouched, an accepted one
threads the updated registry on. -/
def bulkRun (cfg : GatewayConfig) (r : Registry) :
    List UploadInput → Registry × List (String × Except ValidationError Nat)
  | [] => (r, [])
  | i :: is =>
    match Submit cfg r i with
    | Except.ok (id, r2) =>
      let rest := bulkRun cfg r2 is
      (rest.1, (i.name, Except.ok id) :: rest.2)
    | Except.error e =>
      let rest := bulkRun cfg r is
      (rest.1, (i.name, Except.error e) :: rest.2)

/-- Modelled from the spec: the batch-level response of the bulk endpoint
(§4.1, §6), in the `BulkUploadResponse` shape of src/unnamed/part_003:
total count, accepted count, the names of the rejected files, and a batch
id. -/
def bulkSubmit (cfg : GatewayConfig) (r : Registry) (batchId : Nat)
    (inputs : List UploadInput) :
    BulkUploadResponse × Registry × List (String × Except ValidationError Nat) :=
  let run := bulkRun cfg r inputs
  ({ batch_id := batchId
     total_files := inputs.length
     accepted_files := (run.2.filter (fun o => isAccepted o.2)).length
     rejected_files := (run.2.filter (fun o => ! isAccepted o.2)).map (fun o => o.1)
     processing_started := (run.2.filter (fun o => isAccepted o.2)).length > 0 },
   run.1, run.2)

/-- Submission accepts exactly the inputs that pass validation, whatever the
registry state. -/
theorem submit_isOk_iff_valid (cfg : GatewayConfig) (r : Registry) (i : UploadInput) :
    (∃ v, Submit cfg r i = Except.ok v) ↔ validateInput cfg i = none := by
  constructor
  · rintro ⟨v, hv⟩
    by_contra hne
    obtain ⟨e, he⟩ : ∃ e, validateInput cfg i = some e := by
      cases h : validateInput cfg i with
      | none => exact absurd h hne
      | some e => exact ⟨e, rfl⟩
    simp [Submit, he] at hv
  · intro h
    simp only [Submit, h]
    cases hf : r.files.find? (isActiveDup i.bytes) <;> exact ⟨_, rfl⟩

/-- The acceptance pattern of a bulk run is the per-item validation pattern:
each item's accept/reject outcome depends only on that item. -/
theorem bulkRun_accept_pattern (cfg : GatewayConfig) (inputs : List UploadInput) :
    ∀ r : Registry,
      (bulkRun cfg r inputs).2.map (fun o => isAccepted o.2) =
        inputs.map (fun i => (validateInput cfg i).isNone) := by
  induction inputs with
  | nil => intro r; rfl
  | cons i is ih =>
    intro r
    cases hs : Submit cfg r i with
    | ok v =>
      have hv : (validateInput cfg i).isNone = true := by
        rw [(submit_isOk_iff_valid cfg r i).mp ⟨v, hs⟩]; rfl
      obtain ⟨id, r2⟩ := v
      simp only [bulkRun, hs, List.map_cons]
      rw [ih r2, hv]
      rfl
    | error e =>
      have hv : validateInput cfg i ≠ none := by
        intro hn
        obtain ⟨v, hv⟩ := (submit_isOk_iff_valid cfg r i).mpr hn
        rw [hs] at hv
        exact Except.noConfusion hv
      have hv2 : (validateInput cfg i).isNone = false := by
        cases h : validateInput cfg i with
        | none => exact absurd h hv
        | some _ => rfl
      simp only [bulkRun, hs, List.map_cons]
      rw [ih r, hv2]
      rfl

/-- A bulk run produces one outcome per input, labelled by the input names. -/
theorem bulkRun_names (cfg : GatewayConfig) (inputs : List UploadInput) :
    ∀ r : Registry, (bulkRun cfg r inputs).2.map (fun o => o.1) =
      inputs.map (fun i => i.name) := by
  induction inputs with
  | nil => intro r; rfl
  | cons i is ih =>
    intro r
    cases hs : Submit cfg r i with
    | ok v => obtain ⟨id, r2⟩ := v; simp [bulkRun, hs, ih]
    | error e => simp [bulkRun, hs, ih]

/-- Filtering a list by a predicate and by its negation partitions it. -/
theorem length_filter_add_length_filter_not {α : Type} (p : α → Bool) (l : List α) :
    (l.filter p).length + (l.filter (fun a => ! p a)).length = l.length := by
  induction l with
  | nil => rfl
  | cons a as ih =>
    cases h : p a <;> simp [List.filter_cons, h] <;> omega

/-- C9. Bulk submission applies the single-submission operation to each
input independently: the response carries a `batch_id` and one accept/reject
outcome per input (the acceptance pattern is exactly the per-item validation
pattern, so a rejected input affects neither the batch nor the other items),
and accepted plus rejected counts add up to the batch size. -/
theorem bulk_per_item_outcomes
    (cfg : GatewayConfig) (r : Registry) (batchId : Nat) (inputs : List UploadInput)
    (_hne : inputs ≠ []) :
    (bulkSubmit cfg r batchId inputs).1.batch_id = batchId ∧
    (bulkSubmit cfg r batchId inputs).1.total_files = inputs.length ∧
    (bulkSubmit cfg r batchId inputs).2.2.length = inputs.length ∧
    ((bulkSubmit cfg r batchId inputs).2.2.map (fun o => isAccepted o.2) =
      inputs.map (fun i => (validateInput cfg i).isNone)) ∧
    (bulkSubmit cfg r batchId inputs).1.accepted_files +
      (bulkSubmit cfg r batchId inputs).1.rejected_files.length = inputs.length := by
  have hlen : (bulkRun cfg r inputs).2.length = inputs.length := by
    have := congrArg List.length (bulkRun_accept_pattern cfg inputs r)
    simpa using this
  refine ⟨rfl, rfl, ?_, ?_, ?_⟩
  · simpa [bulkSubmit] using hlen
  · simpa [bulkSubmit] using bulkRun_accept_pattern cfg inputs r
  · simp only [bulkSubmit, List.length_map]
    rw [length_filter_add_length_filter_not (fun o => isAccepted o.2) (bulkRun cfg r inputs).2]
    exact hlen

/-- An upload that the gateway rejects (unsupported media kind). -/
def iBad : UploadInput :=
  { name := "x.exe", bytes := [1], declaredMediaKind := "binary" }

theorem bulk_per_item_outcomes_witness :
    (bulkSubmit cfgEx { files := [], nextId := 0 } 7 [iEx, iBad]).1.batch_id = 7 ∧
    (bulkSubmit cfgEx { files := [], nextId := 0 } 7 [iEx, iBad]).1.total_files = 2 ∧
    (bulkSubmit cfgEx { files := [], nextId := 0 } 7 [iEx, iBad]).2.2.length = 2 ∧
    ((bulkSubmit cfgEx { files := [], nextId := 0 } 7 [iEx, iBad]).2.2.map
        (fun o => isAccepted o.2) =
      [iEx, iBad].map (fun i => (validateInput cfgEx i).isNone)) ∧
    (bulkSubmit cfgEx { files := [], nextId := 0 } 7 [iEx, iBad]).1.accepted_files +
      (bulkSubmit cfgEx { files := [], nextId := 0 } 7 [iEx, iBad]).1.rejected_files.length
        = 2 := by
  have h := bulk_per_item_outcomes cfgEx { files := [], nextId := 0 } 7 [iEx, iBad]
    (by simp)
  simpa using h

/-- The extraction strategies of the document fallback chain (design
document §4.3): structured-text extraction (native), cloud OCR, local OCR. -/
inductive DocStrategy
  | native
  | ocrPrimary
  | ocrFallback
  deriving DecidableEq, Repr

/-- A successful strategy call: the extracted text and the per-call
confidence the strategy reports (`0 ≤ confidence ≤ 1`). -/
structure StrategyOutcome where
  text : String
  confidence : ℚ
  deriving DecidableEq, Repr

/-- The fixed document chain order: native, then OCR-primary, then
OCR-fallback (§4.3). -/
def docChain : List DocStrategy :=
  [DocStrategy.native, DocStrategy.ocrPrimary, DocStrategy.ocrFallback]

/-- Whether a strategy call is accepted for a given input: it returns a
result whose per-call confidence meets the minimum threshold.  The input is
represented by its outcome oracle `outcome`, giving each strategy's result
on that input (`none` = exception/timeout/no text layer). -/
def acceptedStrategy (outcome : DocStrategy → Option StrategyOutcome) (threshold : ℚ)
    (s : DocStrategy) : Bool :=
  match outcome s with
  | some o => decide (threshold ≤ o.confidence)
  | none => false

/-- Modelled from the spec: the fallback chain runner (§4.3); the worker
backend is not among the web sources.  Strategies are tried in order until
one returns a result meeting the minimum confidence threshold; a failed
strategy advances to the next one. -/
def runChain (outcome : DocStrategy → Option StrategyOutcome) (threshold : ℚ) :
    List DocStrategy → Option (DocStrategy × StrategyOutcome)
  | [] => none
  | s :: rest =>
    match outcome s with
    | some o =>
      if threshold ≤ o.confidence then some (s, o)
      else runChain outcome threshold rest
    | none => runChain outcome threshold rest

/-- Document extraction: run the fixed chain. -/
def extractDocument (outcome : DocStrategy → Option StrategyOutcome) (threshold : ℚ) :
    Option (DocStrategy × StrategyOutcome) :=
  runChain outcome threshold docChain

/-- External collected signal (design document §4.6): market segment,
funding stage, traction indicators. -/
structure ExternalSignals where
  market_segment : String
  funding_stage : String
  traction : String
  deriving DecidableEq, Repr

/-- What the External Data Collector call can come back with: signals, a
clean not-available answer, or an outright failure (§4.6). -/
inductive CollectOutcome
  | signals (s : ExternalSignals)
  | notAvailable
  | failure
  deriving DecidableEq, Repr

/-- Modelled from the spec: the collector is best-effort (§4.6): signals are
kept, and both absence and failure yield `none` — never an error and never
substitute data. -/
def collectSignals : CollectOutcome → Option ExternalSignals
  | CollectOutcome.signals s => some s
  | CollectOutcome.notAvailable => none
  | CollectOutcome.failure => none

/-- Modelled from the spec: the inherent reliability of each document
strategy (§4.4): native structured-text extraction is exact, cloud OCR is
below it, the local fallback engine is the weakest. -/
def reliability : DocStrategy → ℚ
  | DocStrategy.native => 1
  | DocStrategy.ocrPrimary => 9 / 10
  | DocStrategy.ocrFallback => 3 / 4

/-- Modelled from the spec: `confidence_score` combines the winning
strategy's inherent reliability with that strategy's per-call confidence
(§4.4). -/
def confidenceScore (s : DocStrategy) (perCall : ℚ) : ℚ :=
  reliability s * perCall

/-- A processed-content record (design document §3). -/
structure ProcessedContent where
  file_id : Nat
  unified_text : String
  extraction_method : DocStrategy
  confidence_score : ℚ
  external_signals : Option ExternalSignals
  deriving DecidableEq, Repr

/-- Modelled from the spec: `Unify(extractionResult, externalSignals?)`
(§4.4): builds the processed content from the winning extraction result and
the optional external signals. -/
def Unify (fid : Nat) (res : DocStrategy × StrategyOutcome)
    (sig : Option ExternalSignals) : ProcessedContent :=
  { file_id := fid
    unified_text := res.2.text
    extraction_method := res.1
    confidence_score := confidenceScore res.1 res.2.confidence
    external_signals := sig }

/-- Modelled from the spec: one processing pass of the worker (§2, §4.4,
§4.6): extract through the fallback chain, then unify with whatever the
collector produced. -/
def processFile (fid : Nat) (outcome : DocStrategy → Option StrategyOutcome)
    (threshold : ℚ) (collect : CollectOutcome) : Option ProcessedContent :=
  (extractDocument outcome threshold).map
    (fun res => Unify fid res (collectSignals collect))

/-- C5. When the native strategy of the document chain fails, the winning
`extraction_method` is OCR-primary, or OCR-fallback when OCR-primary also
fails; it is never a strategy that failed, and the chain is tried in the
fixed order native → OCR-primary → OCR-fallback. -/
theorem fallback_ordering
    (outcome : DocStrategy → Option StrategyOutcome) (threshold : ℚ)
    (s : DocStrategy) (o : StrategyOutcome)
    (hnat : acceptedStrategy outcome threshold DocStrategy.native = false)
    (hres : extractDocument outcome threshold = some (s, o)) :
    acceptedStrategy outcome threshold s = true ∧
    (s = DocStrategy.ocrPrimary ∨ s = DocStrategy.ocrFallback) ∧
    (acceptedStrategy outcome threshold DocStrategy.ocrPrimary = true →
      s = DocStrategy.ocrPrimary) ∧
    (acceptedStrategy outcome threshold DocStrategy.ocrPrimary = false →
      s = DocStrategy.ocrFallback) := by
  have key : ∀ chain : List DocStrategy,
      runChain outcome threshold chain = some (s, o) →
      acceptedStrategy outcome threshold s = true ∧ s ∈ chain ∧
      ∀ t ∈ chain, acceptedStrategy outcome threshold t = true →
        chain.indexOf s ≤ chain.indexOf t := by
    intro chain
    induction chain with
    | nil => intro h; exact absurd h (by simp [runChain])
    | cons c rest ih =>
      intro h
      by_cases hc : acceptedStrategy outcome threshold c = true
      · cases h2 : outcome c with
        | none => simp [acceptedStrategy, h2] at hc
        | some oc =>
          have hτ : threshold ≤ oc.confidence := by
            simpa [acceptedStrategy, h2] using hc
          have hrun : runChain outcome threshold (c :: rest) = some (c, oc) := by
            simp [runChain, h2, hτ]
          rw [hrun] at h
          have hcs : c = s := congrArg Prod.fst (Option.some.inj h)
          subst hcs
          refine ⟨hc, List.mem_cons_self _ _, fun t _ _ => ?_⟩
          rw [List.indexOf_cons_self]
          exact Nat.zero_le _
      · have hrec : runChain outcome threshold (c :: rest) =
            runChain outcome threshold rest := by
          cases h2 : outcome c with
          | none => simp [runChain, h2]
          | some oc =>
            have hle : ¬ threshold ≤ oc.confidence := by
              intro hle
              exact hc (by simp [acceptedStrategy, h2, hle])
            simp [runChain, h2, hle]
        rw [hrec] at h
        obtain ⟨ha, hmem, hidx⟩ := ih h
        have hcs : c ≠ s := fun he => by rw [he] at hc; exact hc ha
        refine ⟨ha, List.mem_cons_of_mem _ hmem, ?_⟩
        intro t ht hta
        rcases List.mem_cons.mp ht with hteq | htr
        · rw [hteq] at hta; exact absurd hta hc
        · have hrec2 := hidx t htr hta
          have hct : c ≠ t := fun he => by rw [he] at hc; exact hc hta
          have h1 : (c == s) = false := beq_eq_false_iff_ne.mpr hcs
          have h2 : (c == t) = false := beq_eq_false_iff_ne.mpr hct
          simp only [List.indexOf_cons, h1, h2, cond_false]
          omega
  obtain ⟨ha, hmem, hidx⟩ := key docChain hres
  have hsne : s ≠ DocStrategy.native := by
    intro he
    rw [he] at ha
    rw [ha] at hnat
    exact Bool.noConfusion hnat
  have hcases : s = DocStrategy.ocrPrimary ∨ s = DocStrategy.ocrFallback := by
    cases s with
    | native => exact absurd rfl hsne
    | ocrPrimary => exact Or.inl rfl
    | ocrFallback => exact Or.inr rfl
  refine ⟨ha, hcases, ?_, ?_⟩
  · intro hpo
    rcases hcases with h | h
    · exact h
    · exfalso
      have hle := hidx DocStrategy.ocrPrimary (by simp [docChain]) hpo
      rw [h] at hle
      exact absurd hle (by decide)
  · intro hpo
    rcases hcases with h | h
    · rw [h] at ha
      rw [ha] at hpo
      exact Bool.noConfusion hpo
    · exact h

/-- An outcome oracle for a scanned PDF with no text layer: the native
strategy finds nothing, cloud OCR succeeds with per-call confidence 0.8. -/
def scannedPdf : DocStrategy → Option StrategyOutcome
  | DocStrategy.native => none
  | DocStrategy.ocrPrimary => some { text := "ocr text", confidence := 4 / 5 }
  | DocStrategy.ocrFallback => some { text := "ocr text rough", confidence := 3 / 5 }

theorem fallback_ordering_witness :
    acceptedStrategy scannedPdf (1 / 2) DocStrategy.ocrPrimary = true ∧
    (DocStrategy.ocrPrimary = DocStrategy.ocrPrimary ∨
      DocStrategy.ocrPrimary = DocStrategy.ocrFallback) ∧
    (acceptedStrategy scannedPdf (1 / 2) DocStrategy.ocrPrimary = true →
      DocStrategy.ocrPrimary = DocStrategy.ocrPrimary) ∧
    (acceptedStrategy scannedPdf (1 / 2) DocStrategy.ocrPrimary = false →
      DocStrategy.ocrPrimary = DocStrategy.ocrFallback) :=
  fallback_ordering scannedPdf (1 / 2) DocStrategy.ocrPrimary
    { text := "ocr text", confidence := 4 / 5 }
    (by simp [acceptedStrategy, scannedPdf])
    (by norm_num [extractDocument, docChain, runChain, scannedPdf])

/-- C7. `confidence_score` is the winning strategy's inherent
reliability combined with its per-call confidence, so it reflects the
weakest link: any OCR-fallback result scores strictly below a native
result, and a text-native PDF extracted by the native strategy scores
exactly 1. -/
theorem confidence_weakest_link
    (fid : Nat) (outcome : DocStrategy → Option StrategyOutcome) (threshold : ℚ)
    (o : StrategyOutcome) (sig : Option ExternalSignals)
    (hnat : outcome DocStrategy.native = some o)
    (hconf : o.confidence = 1) (hτ : threshold ≤ 1) :
    (∀ (res : DocStrategy × StrategyOutcome),
      (Unify fid res sig).confidence_score = reliability res.1 * res.2.confidence) ∧
    (∀ c : ℚ, 0 ≤ c → c ≤ 1 →
      confidenceScore DocStrategy.ocrFallback c < confidenceScore DocStrategy.native 1) ∧
    extractDocument outcome threshold = some (DocStrategy.native, o) ∧
    (Unify fid (DocStrategy.native, o) sig).confidence_score = 1 := by
  refine ⟨fun res => rfl, fun c h0 h1 => ?_, ?_, ?_⟩
  · unfold confidenceScore reliability
    have : (3 : ℚ) / 4 * c ≤ 3 / 4 := by nlinarith
    nlinarith
  · have : threshold ≤ o.confidence := hconf ▸ hτ
    simp [extractDocument, docChain, runChain, hnat, this]
  · simp [Unify, confidenceScore, reliability, hconf]

/-- An outcome oracle for a text-native PDF: native extraction succeeds
exactly. -/
def textNativePdf : DocStrategy → Option StrategyOutcome
  | DocStrategy.native => some { text := "the deck text", confidence := 1 }
  | DocStrategy.ocrPrimary => some { text := "the deck text", confidence := 9 / 10 }
  | DocStrategy.ocrFallback => some { text := "the dcck test", confidence := 1 / 2 }

theorem confidence_weakest_link_witness :
    (∀ (res : DocStrategy × StrategyOutcome),
      (Unify 5 res none).confidence_score = reliability res.1 * res.2.confidence) ∧
    (∀ c : ℚ, 0 ≤ c → c ≤ 1 →
      confidenceScore DocStrategy.ocrFallback c < confidenceScore DocStrategy.native 1) ∧
    extractDocument textNativePdf (1 / 2) =
      some (DocStrategy.native, { text := "the deck text", confidence := 1 }) ∧
    (Unify 5 (DocStrategy.native, { text := "the deck text", confidence := 1 })
      none).confidence_score = 1 :=
  confidence_weakest_link 5 textNativePdf (1 / 2)
    { text := "the deck text", confidence := 1 } none rfl rfl (by norm_num)

/-- C8. Failure or absence of the External Data Collector never fails
extraction: processing still yields the processed content of the winning
extraction, with `external_signals = none` — no substitute data and no
error. -/
theorem collector_failure_nonblocking
    (fid : Nat) (outcome : DocStrategy → Option StrategyOutcome) (threshold : ℚ)
    (res : DocStrategy × StrategyOutcome) (collect : CollectOutcome)
    (hext : extractDocument outcome threshold = some res)
    (hcol : collect = CollectOutcome.failure ∨ collect = CollectOutcome.notAvailable) :
    processFile fid outcome threshold collect = some (Unify fid res none) ∧
    (Unify fid res none).external_signals = none := by
  have hsig : collectSignals collect = none := by
    rcases hcol with h | h <;> rw [h] <;> rfl
  exact ⟨by simp [processFile, hext, hsig], rfl⟩

theorem collector_failure_nonblocking_witness :
    processFile 5 textNativePdf (1 / 2) CollectOutcome.failure =
      some (Unify 5 (DocStrategy.native, { text := "the deck text", confidence := 1 }) none) ∧
    (Unify 5 (DocStrategy.native, { text := "the deck text", confidence := 1 })
      none).external_signals = none :=
  collector_failure_nonblocking 5 textNativePdf (1 / 2)
    (DocStrategy.native, { text := "the deck text", confidence := 1 })
    CollectOutcome.failure
    (by norm_num [extractDocument, docChain, runChain, textNativePdf])
    (Or.inl rfl)

/-- Local progress of one worker racing for a file: not started, holding the
lease, committed successfully, or aborted on `LeaseConflictError`. -/
inductive WState
  | notStarted
  | acquired
  | doneOk
  | doneConflict
  deriving DecidableEq, Repr

/-- The shared registry row for one file during a worker race, plus each
worker's local progress: the lease (worker id), the file status, and the list
of workers that committed a `ProcessedContent` write. -/
structure RaceConfig where
  lease : Option Nat
  status : FileStatus
  writes : List Nat
  ws : Nat → WState

/-- Modelled from the spec: one atomic step of worker `w` against the
registry (§4.2, §5).  Lease acquisition is a compare-and-swap: it succeeds
only if no lease is held and the file is still `uploaded`; otherwise the
worker observes `LeaseConflictError` and abandons.  The commit
`processing → extracted` is atomic with the lease release and performs the
single `ProcessedContent` write; a finished worker does nothing. -/
def raceStep (c : RaceConfig) (w : Nat) : RaceConfig :=
  match c.ws w with
  | WState.notStarted =>
    if c.lease = none ∧ c.status = FileStatus.uploaded then
      { c with
        lease := some w
        status := FileStatus.processing
        ws := fun x => if x = w then WState.acquired else c.ws x }
    else
      { c with ws := fun x => if x = w then WState.doneConflict else c.ws x }
  | WState.acquired =>
    { c with
      lease := none
      status := FileStatus.extracted
      writes := c.writes ++ [w]
      ws := fun x => if x = w then WState.doneOk else c.ws x }
  | _ => c

/-- The initial row: no lease, file `uploaded`, no write, no worker started. -/
def raceInit : RaceConfig :=
  { lease := none
    status := FileStatus.uploaded
    writes := []
    ws := fun _ => WState.notStarted }

/-- An interleaving of atomic worker steps: the schedule lists which worker
acts at each instant. -/
def runSchedule (sched : List Nat) : RaceConfig :=
  sched.foldl raceStep raceInit

/-- A worker is finished once it has either committed or aborted. -/
def raceFinished : WState → Bool
  | WState.doneOk => true
  | WState.doneConflict => true
  | _ => false

/-- Reachability invariant of the race: the file is untouched and nobody has
started, or exactly one worker holds the lease mid-processing, or exactly one
worker has committed; in the latter two cases every other worker is either
not started or aborted with a conflict. -/
def RaceInv (c : RaceConfig) : Prop :=
  (c.lease = none ∧ c.status = FileStatus.uploaded ∧ c.writes = [] ∧
    ∀ w, c.ws w = WState.notStarted) ∨
  (∃ w0, c.lease = some w0 ∧ c.status = FileStatus.processing ∧ c.writes = [] ∧
    c.ws w0 = WState.acquired ∧
    ∀ w, w ≠ w0 → c.ws w = WState.notStarted ∨ c.ws w = WState.doneConflict) ∨
  (∃ w0, c.lease = none ∧ c.status = FileStatus.extracted ∧ c.writes = [w0] ∧
    c.ws w0 = WState.doneOk ∧
    ∀ w, w ≠ w0 → c.ws w = WState.notStarted ∨ c.ws w = WState.doneConflict)

/-- One atomic step preserves the race invariant. -/
theorem raceStep_inv (c : RaceConfig) (w : Nat) (h : RaceInv c) :
    RaceInv (raceStep c w) := by
  rcases h with ⟨hl, hs, hw, hws⟩ | ⟨w0, hl, hs, hw, hw0, hrest⟩ |
    ⟨w0, hl, hs, hw, hw0, hrest⟩
  · -- idle row: the stepping worker acquires the lease
    have hstep : raceStep c w =
        { c with
          lease := some w
          status := FileStatus.processing
          ws := fun x => if x = w then WState.acquired else c.ws x } := by
      simp [raceStep, hws w, hl, hs]
    refine Or.inr (Or.inl ⟨w, ?_⟩)
    rw [hstep]
    exact ⟨rfl, rfl, hw, by simp, fun x hx => Or.inl (by simp [hx, hws x])⟩
  · -- some worker w0 holds the lease
    by_cases hww : w = w0
    · -- the lease holder commits and releases atomically
      subst hww
      have hstep : raceStep c w =
          { c with
            lease := none
            status := FileStatus.extracted
            writes := c.writes ++ [w]
            ws := fun x => if x = w then WState.doneOk else c.ws x } := by
        simp [raceStep, hw0]
      refine Or.inr (Or.inr ⟨w, ?_⟩)
      rw [hstep]
      refine ⟨rfl, rfl, by simp [hw], by simp, fun x hx => ?_⟩
      simpa [hx] using hrest x hx
    · -- any other worker hits the lease CAS and aborts with a conflict
      have hcond : ¬ (c.lease = none ∧ c.status = FileStatus.uploaded) := by
        rw [hl]; simp
      refine Or.inr (Or.inl ⟨w0, ?_⟩)
      rcases hrest w hww with hn | hn
      · have hstep : raceStep c w =
            { c with ws := fun x => if x = w then WState.doneConflict else c.ws x } := by
          simp [raceStep, hn, hcond]
        rw [hstep]
        refine ⟨hl, hs, hw, ?_, fun x hx => ?_⟩
        · simp only
          rw [if_neg (fun h2 : w0 = w => hww h2.symm)]
          exact hw0
        · by_cases hxw : x = w
          · simp [hxw]
          · simpa [hxw] using hrest x hx
      · have hstep : raceStep c w = c := by
          simp [raceStep, hn]
        rw [hstep]
        exact ⟨hl, hs, hw, hw0, hrest⟩
  · -- some worker w0 already committed; the row is terminal
    by_cases hww : w = w0
    · subst hww
      have hstep : raceStep c w = c := by
        simp [raceStep, hw0]
      refine Or.inr (Or.inr ⟨w, ?_⟩)
      rw [hstep]
      exact ⟨hl, hs, hw, hw0, hrest⟩
    · have hcond : ¬ (c.lease = none ∧ c.status = FileStatus.uploaded) := by
        rw [hs]; simp
      refine Or.inr (Or.inr ⟨w0, ?_⟩)
      rcases hrest w hww with hn | hn
      · have hstep : raceStep c w =
            { c with ws := fun x => if x = w then WState.doneConflict else c.ws x } := by
          simp [raceStep, hn, hcond]
        rw [hstep]
        refine ⟨hl, hs, hw, ?_, fun x hx => ?_⟩
        · simp only
          rw [if_neg (fun h2 : w0 = w => hww h2.symm)]
          exact hw0
        · by_cases hxw : x = w
          · simp [hxw]
          · simpa [hxw] using hrest x hx
      · have hstep : raceStep c w = c := by
          simp [raceStep, hn]
        rw [hstep]
        exact ⟨hl, hs, hw, hw0, hrest⟩

/-- The invariant holds after any schedule. -/
theorem runSchedule_inv (sched : List Nat) : RaceInv (runSchedule sched) := by
  have key : ∀ (l : List Nat) (c : RaceConfig), RaceInv c → RaceInv (l.foldl raceStep c) := by
    intro l
    induction l with
    | nil => intro c hc; exact hc
    | cons a as ih => intro c hc; exact ih (raceStep c a) (raceStep_inv c a hc)
  exact key sched raceInit (Or.inl ⟨rfl, rfl, rfl, fun _ => rfl⟩)

/-- A step never changes another worker's local state. -/
theorem raceStep_ws_other (c : RaceConfig) (a w : Nat) (h : w ≠ a) :
    (raceStep c a).ws w = c.ws w := by
  cases hws : c.ws a with
  | notStarted =>
    by_cases hc : c.lease = none ∧ c.status = FileStatus.uploaded
    · simp [raceStep, hws, hc, h]
    · simp [raceStep, hws, hc, h]
  | acquired => simp [raceStep, hws, h]
  | doneOk => simp [raceStep, hws]
  | doneConflict => simp [raceStep, hws]

/-- A worker that never appears in the schedule never starts. -/
theorem runSchedule_ws_of_not_mem (sched : List Nat) (w : Nat) (h : w ∉ sched) :
    (runSchedule sched).ws w = WState.notStarted := by
  have key : ∀ (l : List Nat) (c : RaceConfig), w ∉ l →
      (l.foldl raceStep c).ws w = c.ws w := by
    intro l
    induction l with
    | nil => intro c _; rfl
    | cons a as ih =>
      intro c hm
      rw [List.foldl_cons, ih (raceStep c a) (fun hx => hm (List.mem_cons_of_mem _ hx))]
      exact raceStep_ws_other c a w (fun he => hm (he ▸ List.mem_cons_self _ _))
  exact key sched raceInit h

/-- C3. When any number of workers race for the same file, exactly one of
them transitions it `processing → extracted`: in every interleaving in which
each racing worker has finished, one worker ends `doneOk` with the file
`extracted` and is the only one to have written `ProcessedContent`; every
other racing worker observes `LeaseConflictError` and writes nothing. -/
theorem at_most_one_processor
    (workers sched : List Nat)
    (hsub : ∀ w ∈ sched, w ∈ workers)
    (hne : workers ≠ [])
    (hfin : ∀ w ∈ workers, raceFinished ((runSchedule sched).ws w) = true) :
    ∃ w0 ∈ workers,
      (runSchedule sched).ws w0 = WState.doneOk ∧
      (runSchedule sched).status = FileStatus.extracted ∧
      (runSchedule sched).writes = [w0] ∧
      ∀ w ∈ workers, w ≠ w0 → (runSchedule sched).ws w = WState.doneConflict := by
  have hinv := runSchedule_inv sched
  have hmem : ∀ w : Nat, (runSchedule sched).ws w ≠ WState.notStarted → w ∈ workers := by
    intro w hw
    by_cases hins : w ∈ sched
    · exact hsub w hins
    · exact absurd (runSchedule_ws_of_not_mem sched w hins) hw
  rcases hinv with ⟨_, _, _, hws⟩ | ⟨w0, _, _, _, hw0, _⟩ |
    ⟨w0, hl, hs, hw, hw0, hrest⟩
  · obtain ⟨w, hwmem⟩ : ∃ w, w ∈ workers := by
      cases workers with
      | nil => exact absurd rfl hne
      | cons a l => exact ⟨a, List.mem_cons_self _ _⟩
    have := hfin w hwmem
    rw [hws w] at this
    exact Bool.noConfusion this
  · have hw0mem : w0 ∈ workers := hmem w0 (by rw [hw0]; exact fun h => WState.noConfusion h)
    have := hfin w0 hw0mem
    rw [hw0] at this
    exact Bool.noConfusion this
  · have hw0mem : w0 ∈ workers := hmem w0 (by rw [hw0]; exact fun h => WState.noConfusion h)
    refine ⟨w0, hw0mem, hw0, hs, hw, fun w hwm hwne => ?_⟩
    rcases hrest w hwne with hn | hn
    · have := hfin w hwm
      rw [hn] at this
      exact Bool.noConfusion this
    · exact hn

theorem at_most_one_processor_witness :
    ∃ w0 ∈ [0, 1, 2],
      (runSchedule [0, 1, 2, 0]).ws w0 = WState.doneOk ∧
      (runSchedule [0, 1, 2, 0]).status = FileStatus.extracted ∧
      (runSchedule [0, 1, 2, 0]).writes = [w0] ∧
      ∀ w ∈ [0, 1, 2], w ≠ w0 →
        (runSchedule [0, 1, 2, 0]).ws w = WState.doneConflict :=
  at_most_one_processor [0, 1, 2] [0, 1, 2, 0] (by decide) (by decide) (by decide)

/-- A file selected in the web upload page: its name and its content. -/
structure WebFile where
  name : String
  content : String
  deriving DecidableEq, Repr

/-- The request the unified analyze handler of the web upload page sends to
the ingestion API: either a text ingestion or a single-file ingestion, each
with a title and a source tag. -/
inductive AnalyzeRequest
  | ingestText (text : String) (title : String) (source : String)
  | ingestFile (file : WebFile) (title : String) (source : String)
  deriving DecidableEq, Repr

/-- JavaScript `a || b` on strings: the empty string is falsy. -/
def jsOr (a b : String) : String :=
  if a = "" then b else a

/-- JavaScript `String.prototype.trim`, modelled over the character list:
leading and trailing whitespace removed. -/
def jsTrim (s : String) : String :=
  String.mk (((s.data.dropWhile Char.isWhitespace).reverse.dropWhile
    Char.isWhitespace).reverse)

/-- Handler `handleAnalyzeClick` of the web upload page
(src/web/src/pages/UploadPage.tsx, lines 164–239), reduced to the request it
issues: text only → `ingest-text` with the trimmed text; exactly one file →
`ingest-file` with that file; several files and no text → `ingest-file` with
the first file only; text plus files → `ingest-text` with the trimmed text
and a note stating the file count.  No input → no request (validation
message). -/
def handleAnalyzeClick (text title : String) (files : List WebFile) :
    Option AnalyzeRequest :=
  let hasText := jsTrim text ≠ ""
  let hasFiles := files ≠ []
  if ¬ hasText ∧ ¬ hasFiles then none
  else if hasText ∧ ¬ hasFiles then
    some (AnalyzeRequest.ingestText (jsTrim text) (jsOr title "Startup Material")
      "web_interface")
  else if ¬ hasText ∧ hasFiles ∧ files.length = 1 then
    match files with
    | f :: _ => some (AnalyzeRequest.ingestFile f (jsOr title f.name) "file_upload")
    | [] => none
  else if ¬ hasText ∧ hasFiles ∧ files.length > 1 then
    match files with
    | f :: _ =>
      some (AnalyzeRequest.ingestFile f
        (jsOr title (toString files.length ++ " Files Analysis")) "multi_file_upload")
    | [] => none
  else if hasText ∧ hasFiles then
    some (AnalyzeRequest.ingestText
      (jsTrim text ++ "\n\nNote: " ++ toString files.length ++ " additional files uploaded")
      (jsOr title "Combined Analysis") "combined_upload")
  else none

/-- C10. In the unified analyze handler: with several files and no text,
only the first selected file is submitted (the request is unchanged when the
remaining files are swapped for any others of the same count); with both text
and files, only the text is submitted, the files appearing solely as a note
stating their count. -/
theorem analyze_click_first_file_only
    (text title : String) (f : WebFile) (fs fs2 : List WebFile) :
    (jsTrim text = "" → fs ≠ [] →
      handleAnalyzeClick text title (f :: fs) =
        some (AnalyzeRequest.ingestFile f
          (jsOr title (toString (f :: fs).length ++ " Files Analysis"))
          "multi_file_upload") ∧
      (fs2.length = fs.length →
        handleAnalyzeClick text title (f :: fs) =
          handleAnalyzeClick text title (f :: fs2))) ∧
    (jsTrim text ≠ "" →
      handleAnalyzeClick text title (f :: fs) =
        some (AnalyzeRequest.ingestText
          (jsTrim text ++ "\n\nNote: " ++ toString (f :: fs).length ++
            " additional files uploaded")
          (jsOr title "Combined Analysis") "combined_upload")) := by
  constructor
  · intro htext hfs
    constructor
    · simp [handleAnalyzeClick, htext, hfs, List.length_pos]
    · intro hlen2
      have hfs2 : fs2 ≠ [] := by
        intro h0
        have hz : fs.length = 0 := by rw [← hlen2, h0]; rfl
        exact hfs (List.length_eq_zero.mp hz)
      simp [handleAnalyzeClick, htext, hfs, hfs2, List.length_pos, hlen2]
  · intro htext
    simp [handleAnalyzeClick, htext]

/-- Concrete files for the analyze-handler witness. -/
def fA : WebFile := { name := "deck.pdf", content := "deck body" }

/-- A second concrete file whose content is never sent. -/
def fB : WebFile := { name := "notes.txt", content := "notes body" }

theorem analyze_click_first_file_only_witness :
    (handleAnalyzeClick "" "" [fA, fB] =
      some (AnalyzeRequest.ingestFile fA
        (jsOr "" (toString ([fA, fB] : List WebFile).length ++ " Files Analysis"))
        "multi_file_upload") ∧
      (handleAnalyzeClick "" "" [fA, fB] = handleAnalyzeClick "" "" [fA, fA])) ∧
    (handleAnalyzeClick "pitch" "" [fA, fB] =
      some (AnalyzeRequest.ingestText
        (jsTrim "pitch" ++ "\n\nNote: " ++ toString ([fA, fB] : List WebFile).length ++
          " additional files uploaded")
        (jsOr "" "Combined Analysis") "combined_upload")) := by
  have h := analyze_click_first_file_only "" "" fA [fB] [fA]
  have h2 := analyze_click_first_file_only "pitch" "" fA [fB] [fB]
  refine ⟨⟨(h.1 (by decide) (by simp)).1, (h.1 (by decide) (by simp)).2 rfl⟩, ?_⟩
  exact h2.2 (by decide)

end StartupAnalyst
